import Mathlib

/-!
Shallow embedding of the candidate-selection and matching pipeline of
`url_matcher.py` (legacy-URL to new-URL matcher for SEO redirects):
slug/segment extraction, heuristic slug scoring, segment-aware re-ranking,
top-k shortlist selection, the AI match decision engine with its fallback
policy, the batch orchestrator `run_matching` and the duplicate annotator.

Modelling conventions:
* Python floats are modelled as rationals (`ℚ`); all the scores in the source
  are small decimal literals and the claims are about the arithmetic, not
  IEEE rounding.
* Python strings are Lean `String`s (both are sequences of unicode scalars).
* The AI oracle (`AIClient.chat_json`) is an external collaborator; a call is
  modelled by an `OracleOutcome`: either an `AIClientError` (carrying its
  message) or an arbitrary decoded JSON value (`PyVal`), since `json.loads`
  can return any JSON value, not only an object.
* Uncaught Python exceptions are modelled by `Except.error`; functions that
  cannot raise are total.
-/

namespace UrlMatcher

/-! ### Python string primitives -/

/-- Whitespace test used to model Python `str.strip()` / `str.split()`. -/
def isPyWS (c : Char) : Bool := c.isWhitespace

/-- Model of Python `str.strip()`: drop whitespace from both ends. -/
def pyStrip (s : String) : String :=
  ⟨((s.data.dropWhile isPyWS).reverse.dropWhile isPyWS).reverse⟩

/-- `charsHasPfx p l` is true when `p` is an initial run of `l`. -/
def charsHasPfx : List Char → List Char → Bool
  | [], _ => true
  | _ :: _, [] => false
  | a :: as, b :: bs => a == b && charsHasPfx as bs

/-- `charsHasSub needle hay`: `needle` occurs contiguously inside `hay`. -/
def charsHasSub (needle : List Char) : List Char → Bool
  | [] => charsHasPfx needle []
  | c :: t => charsHasPfx needle (c :: t) || charsHasSub needle t

/-- Model of Python's substring test `needle in hay`. -/
def pySubstr (needle hay : String) : Bool :=
  charsHasSub needle.data hay.data

/-- Split a char list at every separator occurrence, keeping empty pieces
(Python `"a/b".split("/")`, and the `str.split(p)` piece structure). -/
def split_chars (p : Char → Bool) : List Char → List (List Char)
  | [] => [[]]
  | c :: cs =>
    let r := split_chars p cs
    if p c then [] :: r
    else
      match r with
      | [] => [[c]]
      | h :: t => (c :: h) :: t

/-- Model of Python `s.split(sep)` for a one-character separator. -/
def py_split (s : String) (sep : Char) : List String :=
  (split_chars (fun c => c == sep) s.data).map String.mk

/-- Model of Python `s.split()` pieces before dropping empties: split at each
whitespace character. -/
def py_split_ws (s : String) : List String :=
  (split_chars isPyWS s.data).map String.mk

/-- Model of Python `s.replace(a, b)` for one-character pattern and
replacement. -/
def py_replace (s : String) (a b : Char) : String :=
  ⟨s.data.map (fun c => if c == a then b else c)⟩

/-- Model of Python `s[:n]` (slicing by code points). -/
def py_take (s : String) (n : ℕ) : String :=
  ⟨s.data.take n⟩

/-- Model of Python `s.lower()` (ASCII-adequate; the keywords are ASCII or
Persian, and Persian letters are unaffected). -/
def py_lower (s : String) : String :=
  ⟨s.data.map Char.toLower⟩

/-! ### `urllib.parse.urlparse(url).path` -/

/-- Valid URL scheme per `urllib.parse`: first char an ASCII letter, the rest
ASCII letters, digits, `+`, `-` or `.`. -/
def valid_scheme : List Char → Bool
  | [] => false
  | c :: cs => c.isAlpha && cs.all (fun d => d.isAlphanum || d == '+' || d == '-' || d == '.')

/-- Strip a leading `scheme:` when the text before the first `:` is a valid
nonempty scheme (mirrors `urlsplit`'s `url.find(':')` handling). -/
def strip_scheme (l : List Char) : List Char :=
  match l.findIdx? (fun c => c == ':') with
  | some i => if 0 < i ∧ valid_scheme (l.take i) then l.drop (i + 1) else l
  | none => l

/-- Strip a leading `//netloc`: everything up to the first `/`, `?` or `#`
after the two slashes belongs to the network location. -/
def strip_netloc (l : List Char) : List Char :=
  match l with
  | '/' :: '/' :: rest => rest.dropWhile (fun c => !(c == '/' || c == '?' || c == '#'))
  | _ => l

/-- Model of `urllib.parse.urlparse(url).path`: strip a valid scheme, strip a
`//netloc`, then cut at the first `#` and at the first `?`. -/
def url_path (url : String) : String :=
  ⟨((strip_netloc (strip_scheme url.data)).takeWhile (fun c => !(c == '#'))).takeWhile
      (fun c => !(c == '?'))⟩

/-! ### Slug / segment extraction (`url_matcher.py`) -/

/-- `extract_slug`: last non-empty path component, or `""`. -/
def extract_slug (url : String) : String :=
  let path := url_path url
  if path = "" then ""
  else
    let parts := (py_split path '/').filter (fun p => p ≠ "")
    match parts.getLast? with
    | some p => p
    | none => ""

/-- `extract_segments`: the non-empty path components, in order. -/
def extract_segments (url : String) : List String :=
  let path := url_path url
  if path = "" then [] else (py_split path '/').filter (fun p => p ≠ "")

/-- `get_primary_segment`: first segment, or `""`. -/
def get_primary_segment (url : String) : String :=
  match extract_segments url with
  | [] => ""
  | s :: _ => s

/-- The fixed keyword set of `is_category_or_brand_page` (English and Persian). -/
def category_keywords : List String :=
  ["category", "categories", "brand", "brands", "collection", "collections",
   "product-category", "product-brand", "دسته", "برند", "مجموعه"]

/-- `is_category_or_brand_page`.  Note: the source computes
`path = urlparse(url).path.lower()` but never uses that variable; the keyword
test runs over the original-case segments with Python's case-sensitive `in`. -/
def is_category_or_brand_page (url : String) : Bool :=
  let segments := extract_segments url
  if segments.any (fun seg => category_keywords.any (fun kw => pySubstr kw seg)) then
    true
  else if 2 ≤ segments.length && segments.length ≤ 3 then
    true
  else
    false

/-! ### Heuristic scoring -/

/-- `tokenize_slug`: replace `-`/`_` by spaces, split on whitespace, drop
empty tokens. -/
def tokenize_slug (slug : String) : List String :=
  let clean := py_replace (py_replace slug '-' ' ') '_' ' '
  (py_split_ws clean).filter (fun t => t ≠ "")

/-- `heuristic_score`: Jaccard similarity of the token sets plus a bonus when
the first four characters of the raw slugs agree. -/
def heuristic_score (old_slug new_slug : String) : ℚ :=
  let a := tokenize_slug old_slug
  let b := tokenize_slug new_slug
  if a = [] ∨ b = [] then 0
  else
    let common : ℕ := (a.toFinset ∩ b.toFinset).card
    let denom : ℕ := max (a.toFinset ∪ b.toFinset).card 1
    let jaccard : ℚ := (common : ℚ) / (denom : ℚ)
    let bonus : ℚ := if py_take old_slug 4 = py_take new_slug 4 then 1 else 0
    0.7 * jaccard + 0.3 * bonus

/-- `segment_aware_score`: the slug score plus segment/category boosts,
clamped above at `1.0`. -/
def segment_aware_score (old_url new_url : String) (slug_score : ℚ) : ℚ :=
  let old_primary := get_primary_segment old_url
  let new_primary := get_primary_segment new_url
  let old_segments := extract_segments old_url
  let new_segments := extract_segments new_url
  let base1 := slug_score
  let base2 :=
    if old_primary ≠ "" ∧ new_primary ≠ "" ∧ old_primary = new_primary then base1 + 0.3
    else base1
  let base3 := if is_category_or_brand_page new_url then base2 + 0.25 else base2
  let common : ℕ := (old_segments.toFinset ∩ new_segments.toFinset).card
  let base4 := if 1 < common then base3 + 0.1 * (common : ℚ) else base3
  min base4 1

/-! ### Candidate ranking (`top_k_candidates`) -/

/-- The `final_score` used to rank a candidate `u` against `old_url` in
`top_k_candidates`. -/
def final_score (old_url u : String) : ℚ :=
  segment_aware_score old_url u (heuristic_score (extract_slug old_url) (extract_slug u))

/-- The order realised by Python's stable `scored.sort(key=lambda x: x[0],
reverse=True)` on index-tagged entries `(score, originalIndex, url)`: score
descending, ties by original index ascending.  Tagging with the (distinct)
original indices makes the sorted permutation unique, so any correct sort by
this total order models the stable sort. -/
def rank_order (a b : ℚ × ℕ × String) : Prop :=
  b.1 < a.1 ∨ (a.1 = b.1 ∧ a.2.1 ≤ b.2.1)

instance : DecidableRel rank_order := fun a b => by
  unfold rank_order; infer_instance

instance : IsTotal (ℚ × ℕ × String) rank_order := by
  constructor
  intro a b
  rcases lt_trichotomy a.1 b.1 with h | h | h
  · exact Or.inr (Or.inl h)
  · rcases Nat.le_total a.2.1 b.2.1 with h2 | h2
    · exact Or.inl (Or.inr ⟨h, h2⟩)
    · exact Or.inr (Or.inr ⟨h.symm, h2⟩)
  · exact Or.inl (Or.inl h)

instance : IsTrans (ℚ × ℕ × String) rank_order := by
  constructor
  intro a b c hab hbc
  rcases hab with hab | ⟨hab, hab2⟩
  · rcases hbc with hbc | ⟨hbc, _⟩
    · exact Or.inl (hbc.trans hab)
    · exact Or.inl (hbc ▸ hab)
  · rcases hbc with hbc | ⟨hbc, hbc2⟩
    · exact Or.inl (hab ▸ hbc)
    · exact Or.inr ⟨hab.trans hbc, hab2.trans hbc2⟩

/-- The sorted, index-tagged scored list built inside `top_k_candidates`:
`scored = [(final_score old u, i, u) | (i, u) ∈ enumerate new_urls]`, then
Python's stable descending sort. -/
def ranked (old_url : String) (new_urls : List String) : List (ℚ × ℕ × String) :=
  List.insertionSort rank_order
    (new_urls.enum.map (fun iu => (final_score old_url iu.2, iu.1, iu.2)))

/-- `top_k_candidates`: shortlist of at most `k` candidates, with the
"segment root" fallback augmentation of the source (step 5). -/
def top_k_candidates (old_url : String) (new_urls : List String) (k : ℕ) : List String :=
  let old_primary := get_primary_segment old_url
  let sorted := ranked old_url new_urls
  let candidates := (sorted.take k).map (fun t => t.2.2)
  let candidates :=
    if old_primary ≠ "" then
      let fallback_urls := new_urls.filter
        (fun u => get_primary_segment u == old_primary && (extract_segments u).length == 1)
      (fallback_urls.take 2).foldl (fun cs fb => if fb ∈ cs then cs else cs ++ [fb]) candidates
    else candidates
  candidates.take k

/-- The plain ranker described by the spec for the refinement claim: simply
the first `k` elements of the stable descending sort, with no fallback
augmentation. -/
def plain_rank (old_url : String) (new_urls : List String) (k : ℕ) : List String :=
  ((ranked old_url new_urls).take k).map (fun t => t.2.2)

/-! ### The oracle boundary and `ai_match` -/

/-- Decoded JSON values as returned by `AIClient.chat_json` (`json.loads`
output): any JSON value, not only objects. -/
inductive PyVal where
  | vstr (s : String)
  | vnum (q : ℚ)
  | vbool (b : Bool)
  | vnone
  | vlist (xs : List PyVal)
  | vdict (kvs : List (String × PyVal))

/-- Python truthiness of a decoded JSON value. -/
def truthy : PyVal → Bool
  | .vstr s => s ≠ ""
  | .vnum q => q ≠ 0
  | .vbool b => b
  | .vnone => false
  | .vlist xs => !xs.isEmpty
  | .vdict kvs => !kvs.isEmpty

/-- Model of Python `str(v)` for decoded JSON values.  Only the string case
matters for the claims; the other representations are schematic. -/
def py_str : PyVal → String
  | .vstr s => s
  | .vnum q => toString q
  | .vbool b => if b then "True" else "False"
  | .vnone => "None"
  | .vlist _ => "[...]"
  | .vdict _ => "\x7b...\x7d"

/-- Result of Python's `float(v)` coercion: a value, a `ValueError`
(non-numeric string) or a `TypeError` (non-scalar argument). -/
inductive FloatRes where
  | ok (q : ℚ)
  | valueErr (msg : String)
  | typeErr
deriving DecidableEq

/-- A decimal-literal parser modelling `float(str)` on plain decimal strings
(optional sign, digits, optional fractional part), after stripping
whitespace.  Exotic accepted forms (exponents, `inf`, `nan`, underscores) are
not modelled; no claim depends on them. -/
def parse_decimal_digits : List Char → Option ℚ → Option ℚ
  | [], acc => acc
  | c :: cs, acc =>
    if c.isDigit then
      parse_decimal_digits cs (some ((acc.getD 0) * 10 + (c.toNat - '0'.toNat : ℕ)))
    else none

def parse_frac_digits : List Char → ℚ → ℚ → Option ℚ
  | [], acc, _ => some acc
  | c :: cs, acc, scale =>
    if c.isDigit then
      parse_frac_digits cs (acc + scale * (c.toNat - '0'.toNat : ℕ)) (scale / 10)
    else none

def py_parse_float (s : String) : Option ℚ :=
  let t := (pyStrip s).data
  let core : List Char → Option ℚ := fun l =>
    match l.span Char.isDigit with
    | (intPart, rest) =>
      match rest with
      | [] => if intPart = [] then none else parse_decimal_digits intPart (some 0)
      | '.' :: fracPart =>
          if intPart = [] ∧ fracPart = [] then none
          else if fracPart.all Char.isDigit then
            match parse_decimal_digits intPart (some 0) with
            | some ip => (parse_frac_digits fracPart 0 (1 / 10)).map (fun fp => ip + fp)
            | none => (parse_frac_digits fracPart 0 (1 / 10)).map (fun fp => 0 + fp)
          else none
      | _ => none
  match t with
  | '-' :: rest => (core rest).map (fun q => -q)
  | '+' :: rest => core rest
  | _ => core t

/-- Model of Python `float(v)` on decoded JSON values. -/
def py_float : PyVal → FloatRes
  | .vnum q => .ok q
  | .vbool b => .ok (if b then 1 else 0)
  | .vstr s =>
    match py_parse_float s with
    | some q => .ok q
    | none => .valueErr ("could not convert string to float: '" ++ s ++ "'")
  | _ => .typeErr

/-- Model of Python `dict.get(key)`: `None` when the key is absent. -/
def dict_get (kvs : List (String × PyVal)) (key : String) : PyVal :=
  match kvs.find? (fun kv => kv.1 == key) with
  | some kv => kv.2
  | none => .vnone

/-- The mapping returned by `ai_match` (Python returns a dict with these
three entries). -/
structure MatchResult where
  best_new_url : String
  confidence : ℚ
  rationale : String
deriving DecidableEq

/-- One oracle call: either `AIClientError` (message) after the client's
retries, or a decoded JSON value. -/
inductive OracleOutcome where
  | err (msg : String)
  | ok (v : PyVal)

/-- `ai_match`: validate/repair the oracle's answer; on `AIClientError` or
`ValueError` return the fallback result.  `Except.error` models an uncaught
Python exception escaping `ai_match` (an `AttributeError` from `.get` on a
non-dict reply, or a `TypeError` from `float` on a truthy non-scalar). -/
def ai_match (candidates : List String) (outcome : OracleOutcome) :
    Except String MatchResult :=
  match outcome with
  | .err e =>
    .ok { best_new_url := if candidates = [] then "" else candidates.headD ""
          confidence := 0
          rationale := "fallback: " ++ e }
  | .ok v =>
    match v with
    | .vdict result =>
      let braw := dict_get result "best_new_url"
      let best0 := pyStrip (py_str (if truthy braw then braw else .vstr ""))
      let craw := dict_get result "confidence"
      match py_float (if truthy craw then craw else .vnum 0) with
      | .typeErr => .error "TypeError: float() argument must be a string or a real number"
      | .valueErr msg =>
        .ok { best_new_url := if candidates = [] then "" else candidates.headD ""
              confidence := 0
              rationale := "fallback: " ++ msg }
      | .ok conf =>
        let rraw := dict_get result "rationale"
        let rationale := pyStrip (py_str (if truthy rraw then rraw else .vstr ""))
        let best := if best0 ∉ candidates ∧ candidates ≠ [] then candidates.headD "" else best0
        .ok { best_new_url := best, confidence := conf, rationale := rationale }
    | _ => .error "AttributeError: object has no attribute get"

/-! ### Batch orchestration (`run_matching`) and duplicate annotation -/

/-- One output row of `run_matching` (the dict appended to `records`).  The
source serialises `candidates` with `json.dumps` for the spreadsheet; the
list itself is kept here.  `source_dup_of`/`dest_dup_of` are the columns the
annotator adds (empty before annotation). -/
structure Record where
  old_url : String
  old_segment : String
  best_new_url : String
  new_segment : String
  is_category_page : Bool
  confidence : ℚ
  low_confidence : Bool
  rationale : String
  candidates : List String
  source_dup_of : String
  dest_dup_of : String
deriving DecidableEq

/-- Association-list lookup for the two first-seen maps of
`annotate_duplicates` (Python dict `get`/`in` with unique keys). -/
def lookupIdx (m : List (String × ℕ)) (k : String) : Option ℕ :=
  (m.find? (fun p => p.1 == k)).map Prod.snd

/-- The row loop of `annotate_duplicates`: `i` is the positional index of the
first record of `rest`, `mOld`/`mNew` the first-seen maps accumulated so
far. -/
def annotate_go : List Record → ℕ → List (String × ℕ) → List (String × ℕ) → List Record
  | [], _, _, _ => []
  | r :: rs, i, mOld, mNew =>
    let srcPair : String × List (String × ℕ) :=
      match lookupIdx mOld r.old_url with
      | some first => (toString (first + 2), mOld)
      | none => ("", mOld ++ [(r.old_url, i)])
    let dstPair : String × List (String × ℕ) :=
      if r.best_new_url ≠ "" then
        match lookupIdx mNew r.best_new_url with
        | some first => (toString (first + 2), mNew)
        | none => ("", mNew ++ [(r.best_new_url, i)])
      else ("", mNew)
    { r with source_dup_of := srcPair.1, dest_dup_of := dstPair.1 }
      :: annotate_go rs (i + 1) srcPair.2 dstPair.2

/-- `annotate_duplicates`: reset both annotation columns, then a single
forward pass filling them from the first-seen maps. -/
def annotate_duplicates (records : List Record) : List Record :=
  annotate_go records 0 [] []

/-- The rows actually processed: `old_urls[:20] if mode == "test" else
old_urls`. -/
def processed_rows (old_urls : List String) (mode : String) : List String :=
  if mode = "test" then old_urls.take 20 else old_urls

/-- The body of `run_matching`'s per-row loop: rank candidates, decide via
`ai_match`, flag low confidence and build the record dict. -/
def build_record (new_urls : List String) (min_confidence : ℚ) (old_url : String)
    (outcome : OracleOutcome) : Except String Record := do
  let candidates := top_k_candidates old_url new_urls 20
  let m ← ai_match candidates outcome
  let low_conf := m.confidence < min_confidence
  let rationale :=
    if low_conf then
      pyStrip (m.rationale ++ " | below_min_confidence<" ++ toString min_confidence ++ ">")
    else m.rationale
  pure { old_url := old_url
         old_segment := get_primary_segment old_url
         best_new_url := m.best_new_url
         new_segment := get_primary_segment m.best_new_url
         is_category_page := is_category_or_brand_page m.best_new_url
         confidence := m.confidence
         low_confidence := low_conf
         rationale := rationale
         candidates := candidates
         source_dup_of := ""
         dest_dup_of := "" }

/-- The `for old_url in rows` loop of `run_matching`, with the row index `i`
feeding the oracle; an uncaught exception in any iteration aborts the loop
and discards the partial records. -/
def run_rows (new_urls : List String) (min_confidence : ℚ) (oracle : ℕ → OracleOutcome) :
    ℕ → List String → Except String (List Record)
  | _, [] => .ok []
  | i, old_url :: rest => do
    let r ← build_record new_urls min_confidence old_url (oracle i)
    let rs ← run_rows new_urls min_confidence oracle (i + 1) rest
    pure (r :: rs)

/-- `run_matching`: the per-row loop over (possibly truncated) `old_urls`,
followed by duplicate annotation.  The oracle is a row-indexed family of
outcomes; `Except.error` models an uncaught exception aborting the batch. -/
def run_matching (old_urls new_urls : List String) (oracle : ℕ → OracleOutcome)
    (mode : String) (min_confidence : ℚ) : Except String (List Record) := do
  let records ← run_rows new_urls min_confidence oracle 0 (processed_rows old_urls mode)
  pure (annotate_duplicates records)

/-! ### Spec-side definitions used to state the claims -/

/-- The set-semantics Jaccard index of the two token sets (multiplicity
ignored), as the spec words it: `|tokens(old) ∩ tokens(new)| / |tokens(old) ∪
tokens(new)|`. -/
def jaccard_tokens (o n : String) : ℚ :=
  (((tokenize_slug o).toFinset ∩ (tokenize_slug n).toFinset).card : ℚ) /
    (((tokenize_slug o).toFinset ∪ (tokenize_slug n).toFinset).card : ℚ)

/-- The classifier as the claim describes it: keyword matching is a
case-insensitive substring test over the path segments. -/
def is_category_or_brand_page_ci (url : String) : Bool :=
  let segments := extract_segments url
  segments.any (fun seg => category_keywords.any (fun kw => pySubstr kw (py_lower seg)))
    || (2 ≤ segments.length && segments.length ≤ 3)

/-- Strict version of `rank_order` (score strictly descending, or equal score
and strictly earlier pool index): what "descending with ties in original pool
order" means on index-tagged entries. -/
def rank_lt (a b : ℚ × ℕ × String) : Prop :=
  b.1 < a.1 ∨ (a.1 = b.1 ∧ a.2.1 < b.2.1)

/-- The `best_new_url` that `ai_match` computes when it parses an oracle
reply `kvs`: the stringified, stripped field, overridden by `candidates[0]`
when it is not a member of a non-empty shortlist. -/
def parsed_best (candidates : List String) (kvs : List (String × PyVal)) : String :=
  let best0 := pyStrip (py_str
    (if truthy (dict_get kvs "best_new_url") then dict_get kvs "best_new_url" else .vstr ""))
  if best0 ∉ candidates ∧ candidates ≠ [] then candidates.headD "" else best0

/-- The `rationale` that `ai_match` computes when it parses an oracle reply
`kvs`: the stringified, stripped field. -/
def parsed_rationale (kvs : List (String × PyVal)) : String :=
  pyStrip (py_str
    (if truthy (dict_get kvs "rationale") then dict_get kvs "rationale" else .vstr ""))

/-- First element of a non-empty list is a member (`candidates[0]`). -/
theorem headD_mem {l : List String} (h : l ≠ []) : l.headD "" ∈ l := by
  cases l with
  | nil => exact absurd rfl h
  | cons a t => exact List.mem_cons_self a t

end UrlMatcher

namespace UrlMatcher

/-! ### Shared facts about the ranker -/

/-- The fallback loop of `top_k_candidates` only ever appends. -/
theorem rank_foldl_extra (fbs : List String) (cs : List String) :
    ∃ extra, fbs.foldl (fun cs fb => if fb ∈ cs then cs else cs ++ [fb]) cs = cs ++ extra := by
  induction fbs generalizing cs with
  | nil => exact ⟨[], by simp⟩
  | cons fb fbs ih =>
    by_cases h : fb ∈ cs
    · simpa [h] using ih cs
    · obtain ⟨e, he⟩ := ih (cs ++ [fb])
      exact ⟨[fb] ++ e, by simpa [h, List.append_assoc] using he⟩

/-- The fallback loop appends nothing when every fallback URL is already in
the shortlist. -/
theorem rank_foldl_noop (fbs : List String) (cs : List String)
    (h : ∀ fb ∈ fbs, fb ∈ cs) :
    fbs.foldl (fun cs fb => if fb ∈ cs then cs else cs ++ [fb]) cs = cs := by
  induction fbs with
  | nil => rfl
  | cons fb fbs ih =>
    simp only [List.foldl_cons, if_pos (h fb (List.mem_cons_self fb fbs))]
    exact ih (fun x hx => h x (List.mem_cons_of_mem fb hx))

/-- The sorted tagged list has one entry per pool element. -/
theorem ranked_length (old_url : String) (pool : List String) :
    (ranked old_url pool).length = pool.length := by
  unfold ranked
  rw [(List.perm_insertionSort rank_order _).length_eq]
  simp

/-- The urls of the sorted tagged list are a permutation of the pool. -/
theorem ranked_map_perm (old_url : String) (pool : List String) :
    ((ranked old_url pool).map (fun t => t.2.2)).Perm pool := by
  unfold ranked
  have h1 := (List.perm_insertionSort rank_order
    (pool.enum.map (fun iu => (final_score old_url iu.2, iu.1, iu.2)))).map
      (fun t : ℚ × ℕ × String => t.2.2)
  have h2 : (pool.enum.map (fun iu => (final_score old_url iu.2, iu.1, iu.2))).map
      (fun t : ℚ × ℕ × String => t.2.2) = pool := by
    rw [List.map_map]
    exact List.enum_map_snd pool
  rw [h2] at h1
  exact h1

/-- `top_k_candidates` coincides with the plain ranker: the step-5 fallback
augmentation never changes the returned shortlist. -/
theorem top_k_eq_plain_rank (old_url : String) (pool : List String) (k : ℕ) :
    top_k_candidates old_url pool k = plain_rank old_url pool k := by
  unfold top_k_candidates plain_rank
  by_cases hp : get_primary_segment old_url ≠ ""
  · simp only [if_pos hp]
    set cs := ((ranked old_url pool).take k).map (fun t : ℚ × ℕ × String => t.2.2) with hcs
    have hlen : cs.length = min k pool.length := by
      rw [hcs, List.length_map, List.length_take, ranked_length]
    by_cases hk : k ≤ pool.length
    · have hlk : cs.length = k := by rw [hlen]; exact Nat.min_eq_left hk
      obtain ⟨extra, hextra⟩ := rank_foldl_extra
        ((pool.filter (fun u => get_primary_segment u == get_primary_segment old_url &&
          (extract_segments u).length == 1)).take 2) cs
      rw [hextra, List.take_append_eq_append_take, hlk, Nat.sub_self, List.take_zero,
        List.append_nil, List.take_of_length_le (le_of_eq hlk)]
    · push_neg at hk
      have hall : (ranked old_url pool).take k = ranked old_url pool :=
        List.take_of_length_le (by rw [ranked_length]; exact hk.le)
      have hnoop : ∀ fb ∈ (pool.filter (fun u =>
          get_primary_segment u == get_primary_segment old_url &&
          (extract_segments u).length == 1)).take 2, fb ∈ cs := by
        intro fb hfb
        have hfp : fb ∈ pool :=
          List.mem_of_mem_filter (List.mem_of_mem_take hfb)
        rw [hcs, hall]
        exact ((ranked_map_perm old_url pool).mem_iff).mpr hfp
      rw [rank_foldl_noop _ _ hnoop]
      exact List.take_of_length_le (by rw [hlen]; exact le_trans (Nat.min_le_right _ _) hk.le)
  · simp only [if_neg hp]
    exact List.take_of_length_le (le_trans (le_of_eq (List.length_map _ _))
      (le_trans (le_of_eq (List.length_take _ _)) (Nat.min_le_left _ _)))

/-- The sorted tagged list is strictly ordered: score strictly descending,
ties broken by strictly increasing original pool index. -/
theorem ranked_pairwise_rank_lt (old_url : String) (pool : List String) :
    (ranked old_url pool).Pairwise rank_lt := by
  have hsorted : (ranked old_url pool).Pairwise rank_order :=
    List.sorted_insertionSort rank_order _
  have hidx : ((ranked old_url pool).map (fun t => t.2.1)).Nodup := by
    have hperm := (List.perm_insertionSort rank_order
      (pool.enum.map (fun iu => (final_score old_url iu.2, iu.1, iu.2)))).map
        (fun t : ℚ × ℕ × String => t.2.1)
    have heq : (pool.enum.map (fun iu => (final_score old_url iu.2, iu.1, iu.2))).map
        (fun t : ℚ × ℕ × String => t.2.1) = List.range pool.length := by
      rw [List.map_map]
      exact List.enum_map_fst pool
    rw [heq] at hperm
    exact hperm.nodup_iff.mpr (List.nodup_range _)
  have hne : (ranked old_url pool).Pairwise (fun a b => a.2.1 ≠ b.2.1) :=
    List.pairwise_map.mp hidx
  refine (hsorted.and hne).imp ?_
  rintro a b ⟨ho | ⟨heq, hle⟩, hne2⟩
  · exact Or.inl ho
  · exact Or.inr ⟨heq, lt_of_le_of_ne hle hne2⟩

/-- Every entry of the sorted tagged list carries the final score of its url
and points back at its slot in the pool. -/
theorem ranked_elem (old_url : String) (pool : List String) :
    ∀ t ∈ ranked old_url pool,
      t.1 = final_score old_url t.2.2 ∧ pool[t.2.1]? = some t.2.2 := by
  intro t ht
  have hmem : t ∈ pool.enum.map (fun iu => (final_score old_url iu.2, iu.1, iu.2)) := by
    unfold ranked at ht
    exact (List.mem_insertionSort rank_order).mp ht
  obtain ⟨iu, hiu, rfl⟩ := List.mem_map.mp hmem
  obtain ⟨i, u⟩ := iu
  obtain ⟨hlt, hx⟩ := List.mem_enum hiu
  refine ⟨rfl, ?_⟩
  rw [List.getElem?_eq_getElem hlt, ← hx]

/-! ### Claim C7 -/

/-- Claim C7: the shortlist has length at most `k` and equals the first `k`
entries of the tagged stable sort, whose entries are strictly ordered by
(final score descending, then original pool index) and carry correct scores
and pool slots — i.e. the shortlist is in descending final-score order with
ties in original pool order. -/
theorem c7_shortlist_sorted (old_url : String) (pool : List String) (k : ℕ) :
    (top_k_candidates old_url pool k).length ≤ k ∧
    top_k_candidates old_url pool k =
      ((ranked old_url pool).take k).map (fun t => t.2.2) ∧
    (ranked old_url pool).Pairwise rank_lt ∧
    ∀ t ∈ ranked old_url pool,
      t.1 = final_score old_url t.2.2 ∧ pool[t.2.1]? = some t.2.2 := by
  refine ⟨?_, top_k_eq_plain_rank old_url pool k,
    ranked_pairwise_rank_lt old_url pool, ranked_elem old_url pool⟩
  rw [top_k_eq_plain_rank]
  unfold plain_rank
  rw [List.length_map, List.length_take]
  exact Nat.min_le_left _ _

/-- Witness for C7 at a concrete pool: the shortlist bound and the per-entry
facts of the sorted tagged list, instantiated. -/
theorem c7_shortlist_sorted_witness :
    (top_k_candidates "/blog/my-post" ["/blog/my-post-v2", "/shop/widget"] 20).length ≤ 20 ∧
    (ranked "/blog/my-post" ["/blog/my-post-v2", "/shop/widget"]).Pairwise rank_lt :=
  ⟨(c7_shortlist_sorted "/blog/my-post" ["/blog/my-post-v2", "/shop/widget"] 20).1,
   (c7_shortlist_sorted "/blog/my-post" ["/blog/my-post-v2", "/shop/widget"] 20).2.2.1⟩

/-! ### Claim C10 -/

/-- Claim C10: `top_k_candidates` is extensionally equal to the plain ranker
(first `k` of the stable descending sort); the step-5 fallback augmentation
never changes the returned shortlist. -/
theorem c10_augmentation_is_noop (old_url : String) (pool : List String) (k : ℕ) :
    top_k_candidates old_url pool k = plain_rank old_url pool k :=
  top_k_eq_plain_rank old_url pool k

/-! ### Shared facts about the duplicate annotator -/

/-- Index of the first occurrence of `key` in a list (the "first-seen row"). -/
def firstIdx (key : String) : List String → Option ℕ
  | [] => none
  | s :: rest => if s == key then some 0 else (firstIdx key rest).map (· + 1)

/-- The row-reference cell the annotator writes for `key` given the preceding
rows' keys: the displayed spreadsheet row of the first occurrence
(0-based index + 2), or empty when `key` is first-seen. -/
def srcRef (prev : List String) (key : String) : String :=
  match firstIdx key prev with
  | some i => toString (i + 2)
  | none => ""

/-- What the annotator writes into one record, given the old urls and
best-new urls of all preceding rows. -/
def annotate_cell (prevOlds prevNews : List String) (r : Record) : Record :=
  { r with
    source_dup_of := srcRef prevOlds r.old_url
    dest_dup_of := if r.best_new_url = "" then "" else srcRef prevNews r.best_new_url }

theorem firstIdx_append_of_some {key : String} {l1 : List String} {j : ℕ}
    (h : firstIdx key l1 = some j) (l2 : List String) :
    firstIdx key (l1 ++ l2) = some j := by
  induction l1 generalizing j with
  | nil => exact absurd h (by simp [firstIdx])
  | cons s t ih =>
    simp only [firstIdx, List.cons_append, List.append_eq] at h ⊢
    by_cases hs : s == key
    · simpa [hs] using h
    · simp only [hs, if_false, ite_false, Bool.false_eq_true] at h ⊢
      obtain ⟨j0, hj0, hj⟩ := Option.map_eq_some'.mp h
      subst hj
      simp [List.append_eq, ih hj0]

theorem firstIdx_append_of_none {key : String} {l1 : List String}
    (h : firstIdx key l1 = none) (l2 : List String) :
    firstIdx key (l1 ++ l2) = (firstIdx key l2).map (· + l1.length) := by
  induction l1 with
  | nil => simp
  | cons s t ih =>
    simp only [firstIdx, List.cons_append, List.append_eq] at h ⊢
    by_cases hs : s == key
    · simp [hs] at h
    · simp only [hs, if_false, ite_false, Bool.false_eq_true] at h ⊢
      simp only [List.append_eq] at ih ⊢
      rw [ih (Option.map_eq_none'.mp h), Option.map_map]
      cases firstIdx key l2 <;> simp [Function.comp, List.length_cons]

theorem firstIdx_singleton (key x : String) :
    firstIdx key [x] = if x == key then some 0 else none := by
  simp [firstIdx]

/-- Association-list lookup distributes over append. -/
theorem lookupIdx_append (m m' : List (String × ℕ)) (k : String) :
    lookupIdx (m ++ m') k =
      match lookupIdx m k with
      | some v => some v
      | none => lookupIdx m' k := by
  induction m with
  | nil => simp [lookupIdx]
  | cons p t ih =>
    by_cases hp : p.1 == k
    · simp [lookupIdx, List.find?, hp]
    · simp only [lookupIdx, List.cons_append, List.find?, hp] at ih ⊢
      exact ih

theorem lookupIdx_singleton (key : String) (v : ℕ) (k : String) :
    lookupIdx [(key, v)] k = if key == k then some v else none := by
  by_cases h : key == k <;> simp [lookupIdx, List.find?, h]

end UrlMatcher

namespace UrlMatcher

/-- Extending the seen-prefix by one key preserves the first-seen-map
invariant, in each of the three ways the annotator's step can use it. -/
theorem lookup_invariant_extend {prev : List String} {m : List (String × ℕ)} {key k : String}
    (hk : lookupIdx m k = firstIdx k prev) :
    ((∃ f, firstIdx key prev = some f) → lookupIdx m k = firstIdx k (prev ++ [key])) ∧
    (firstIdx key prev = none →
      lookupIdx (m ++ [(key, prev.length)]) k = firstIdx k (prev ++ [key])) ∧
    (key ≠ k → lookupIdx m k = firstIdx k (prev ++ [key])) := by
  refine ⟨?_, ?_, ?_⟩
  · rintro ⟨f, hf⟩
    rcases hfk : firstIdx k prev with _ | j
    · rw [hk, hfk, firstIdx_append_of_none hfk, firstIdx_singleton]
      have hne : ¬((key == k) = true) := by
        intro hkey
        rw [eq_of_beq hkey] at hf
        rw [hf] at hfk
        cases hfk
      simp [hne]
    · rw [hk, hfk, firstIdx_append_of_some hfk]
  · intro hnone
    rw [lookupIdx_append]
    rcases hfk : firstIdx k prev with _ | j
    · rw [hk, hfk]
      rw [firstIdx_append_of_none hfk, firstIdx_singleton, lookupIdx_singleton]
      by_cases hkey : key == k
      · simp [hkey]
      · simp [hkey]
    · rw [hk, hfk, firstIdx_append_of_some hfk]
  · intro hne
    rcases hfk : firstIdx k prev with _ | j
    · rw [hk, hfk, firstIdx_append_of_none hfk, firstIdx_singleton]
      have hne2 : ¬((key == k) = true) := by
        intro hkey
        exact hne (eq_of_beq hkey)
      simp [hne2]
    · rw [hk, hfk, firstIdx_append_of_some hfk]

/-- Pointwise description of the annotator's loop: row `j` of the output is
row `j` of the input with the two annotation cells computed from the keys of
all preceding rows (those already folded into the maps, then those of the
current batch). -/
theorem annotate_go_getElem :
    ∀ (rest : List Record) (j : ℕ) (prevOld prevNew : List String)
      (mOld mNew : List (String × ℕ)),
      (∀ k, lookupIdx mOld k = firstIdx k prevOld) →
      (∀ k, k ≠ "" → lookupIdx mNew k = firstIdx k prevNew) →
      prevNew.length = prevOld.length →
      (annotate_go rest prevOld.length mOld mNew)[j]? =
        (rest[j]?).map (fun r =>
          annotate_cell (prevOld ++ (rest.take j).map (fun x => x.old_url))
            (prevNew ++ (rest.take j).map (fun x => x.best_new_url)) r) := by
  intro rest
  induction rest with
  | nil => intro j prevOld prevNew mOld mNew _ _ _; simp [annotate_go]
  | cons r rs ih =>
    intro j prevOld prevNew mOld mNew hOld hNew hlen
    match j with
    | 0 =>
      simp only [annotate_go, List.getElem?_cons_zero, List.take_zero, List.map_nil,
        List.append_nil, Option.map_some', annotate_cell]
      congr 1
      refine congrArg₂ (fun a b => { r with source_dup_of := a, dest_dup_of := b }) ?_ ?_
      · rw [hOld r.old_url]
        unfold srcRef
        cases firstIdx r.old_url prevOld <;> rfl
      · by_cases hbe : r.best_new_url = ""
        · simp [hbe]
        · have hbe2 : r.best_new_url ≠ "" := hbe
          rw [if_pos hbe2, if_neg hbe, hNew r.best_new_url hbe]
          unfold srcRef
          cases firstIdx r.best_new_url prevNew <;> rfl
    | Nat.succ j' =>
      have hstep : (annotate_go (r :: rs) prevOld.length mOld mNew)[j' + 1]? =
          (annotate_go rs (prevOld.length + 1)
            (match lookupIdx mOld r.old_url with
             | some _ => mOld
             | none => mOld ++ [(r.old_url, prevOld.length)])
            (if r.best_new_url ≠ "" then
              match lookupIdx mNew r.best_new_url with
              | some _ => mNew
              | none => mNew ++ [(r.best_new_url, prevOld.length)]
             else mNew))[j']? := by
        simp only [annotate_go]
        rcases hfo : lookupIdx mOld r.old_url with _ | f <;>
          by_cases hbe : r.best_new_url ≠ "" <;>
            rcases hfn : lookupIdx mNew r.best_new_url with _ | g <;>
              simp [hfo, hbe, hfn, List.getElem?_cons_succ]
      rw [hstep]
      have hlen1 : prevOld.length + 1 = (prevOld ++ [r.old_url]).length := by
        simp
      rw [hlen1]
      have hOld' : ∀ k,
          lookupIdx (match lookupIdx mOld r.old_url with
            | some _ => mOld
            | none => mOld ++ [(r.old_url, prevOld.length)]) k =
          firstIdx k (prevOld ++ [r.old_url]) := by
        intro k
        rcases hfo : lookupIdx mOld r.old_url with _ | f
        · exact (lookup_invariant_extend (hOld k)).2.1 (by rw [← hOld r.old_url, hfo])
        · exact (lookup_invariant_extend (hOld k)).1 ⟨f, by rw [← hOld r.old_url, hfo]⟩
      have hNew' : ∀ k, k ≠ "" →
          lookupIdx (if r.best_new_url ≠ "" then
            match lookupIdx mNew r.best_new_url with
            | some _ => mNew
            | none => mNew ++ [(r.best_new_url, prevOld.length)]
           else mNew) k =
          firstIdx k (prevNew ++ [r.best_new_url]) := by
        intro k hk
        by_cases hbe : r.best_new_url ≠ ""
        · rw [if_pos hbe]
          rcases hfn : lookupIdx mNew r.best_new_url with _ | g
          · rw [← hlen]
            exact (lookup_invariant_extend (hNew k hk)).2.1
              (by rw [← hNew r.best_new_url hbe, hfn])
          · exact (lookup_invariant_extend (hNew k hk)).1
              ⟨g, by rw [← hNew r.best_new_url hbe, hfn]⟩
        · push_neg at hbe
          have hcond : ¬(r.best_new_url ≠ "") := by simp [hbe]
          rw [if_neg hcond]
          exact (lookup_invariant_extend (hNew k hk)).2.2 (by rw [hbe]; exact Ne.symm hk)
      have hlen' : (prevNew ++ [r.best_new_url]).length = (prevOld ++ [r.old_url]).length := by
        simp [hlen]
      rw [ih j' (prevOld ++ [r.old_url]) (prevNew ++ [r.best_new_url]) _ _ hOld' hNew' hlen']
      rw [List.getElem?_cons_succ, List.take_succ_cons, List.map_cons, List.map_cons]
      simp only [List.append_nil, List.append_assoc, List.singleton_append]

/-- The annotator never adds or removes rows. -/
theorem annotate_go_length :
    ∀ (rest : List Record) (i : ℕ) (mOld mNew : List (String × ℕ)),
      (annotate_go rest i mOld mNew).length = rest.length := by
  intro rest
  induction rest with
  | nil => intro i mOld mNew; rfl
  | cons r rs ih =>
    intro i mOld mNew
    simp only [annotate_go, List.length_cons]
    rw [ih]

/-- Pointwise description of `annotate_duplicates`: row `j` of the output is
row `j` of the input with the two annotation cells computed from the keys of
the preceding rows. -/
theorem annotate_duplicates_getElem (records : List Record) (j : ℕ) :
    (annotate_duplicates records)[j]? =
      (records[j]?).map (fun r =>
        annotate_cell ((records.take j).map (fun x => x.old_url))
          ((records.take j).map (fun x => x.best_new_url)) r) := by
  have h := annotate_go_getElem records j [] [] [] []
    (fun k => by simp [lookupIdx, firstIdx]) (fun k _ => by simp [lookupIdx, firstIdx]) rfl
  simpa [annotate_duplicates] using h

/-- Characterisation of a successful first-occurrence search. -/
theorem firstIdx_some_spec (key : String) :
    ∀ (l : List String) (i : ℕ), firstIdx key l = some i →
      l[i]? = some key ∧ ∀ j, j < i → l[j]? ≠ some key := by
  intro l
  induction l with
  | nil => intro i h; exact absurd h (by simp [firstIdx])
  | cons s t ih =>
    intro i h
    by_cases hs : (s == key) = true
    · simp only [firstIdx, hs, if_true, ite_true] at h
      cases h
      refine ⟨by simp [eq_of_beq hs], ?_⟩
      intro j hj
      omega
    · simp only [firstIdx, hs, if_false, ite_false, Bool.false_eq_true] at h
      obtain ⟨i0, hi0, hi⟩ := Option.map_eq_some'.mp h
      subst hi
      obtain ⟨hmem, hfirst⟩ := ih i0 hi0
      refine ⟨by simpa using hmem, ?_⟩
      intro j hj
      match j with
      | 0 =>
        simp only [List.getElem?_cons_zero]
        intro hcontra
        have : s = key := by injection hcontra
        rw [← this] at hs
        simp at hs
      | Nat.succ j' =>
        simp only [List.getElem?_cons_succ]
        exact hfirst j' (by omega)

/-- A failed first-occurrence search means the key is nowhere in the list. -/
theorem firstIdx_none_spec (key : String) :
    ∀ l : List String, firstIdx key l = none → ∀ j : ℕ, l[j]? ≠ some key := by
  intro l
  induction l with
  | nil => intro _ j; simp
  | cons s t ih =>
    intro h j
    by_cases hs : (s == key) = true
    · simp [firstIdx, hs] at h
    · simp only [firstIdx, hs, if_false, ite_false, Bool.false_eq_true] at h
      match j with
      | 0 =>
        simp only [List.getElem?_cons_zero]
        intro hcontra
        have : s = key := by injection hcontra
        rw [← this] at hs
        simp at hs
      | Nat.succ j' =>
        simp only [List.getElem?_cons_succ]
        exact ih (Option.map_eq_none'.mp h) j'

/-- Prefix-projection indexing helper. -/
theorem take_map_getElem (l : List Record) (j i : ℕ) (f : Record → String) (hij : i < j) :
    ((l.take j).map f)[i]? = (l[i]?).map f := by
  rw [List.getElem?_map, List.getElem?_take, if_pos hij]

/-- What a `srcRef` cell over the projected prefix of the first `j` rows
means in terms of the rows themselves: a non-empty cell names the strictly
earlier first row with the same key, as `toString (index + 2)`; the cell is
empty exactly when no earlier row carries the key. -/
theorem srcRef_take_spec (key : String) (l : List Record) (j : ℕ) (f : Record → String) :
    (srcRef ((l.take j).map f) key ≠ "" →
      ∃ i, i < j ∧ srcRef ((l.take j).map f) key = toString (i + 2) ∧
        (∃ ri, l[i]? = some ri ∧ f ri = key) ∧
        ∀ i', i' < i → ∀ ri', l[i']? = some ri' → f ri' ≠ key) ∧
    ((∀ i, i < j → ∀ ri, l[i]? = some ri → f ri ≠ key) →
      srcRef ((l.take j).map f) key = "") := by
  rcases hfi : firstIdx key ((l.take j).map f) with _ | i
  · have hzero : srcRef ((l.take j).map f) key = "" := by
      unfold srcRef
      rw [hfi]
    exact ⟨fun hne => absurd hzero hne, fun _ => hzero⟩
  · obtain ⟨hmem, hfirst⟩ := firstIdx_some_spec key _ i hfi
    have hilen : i < ((l.take j).map f).length := (List.getElem?_eq_some.mp hmem).1
    have hij : i < j := by
      rw [List.length_map, List.length_take] at hilen
      omega
    rw [take_map_getElem l j i f hij] at hmem
    obtain ⟨ri, hri, hfri⟩ := Option.map_eq_some'.mp hmem
    constructor
    · intro _
      refine ⟨i, hij, by unfold srcRef; rw [hfi], ⟨ri, hri, hfri⟩, ?_⟩
      intro i' hi' ri' hri' hfri'
      have := hfirst i' hi'
      rw [take_map_getElem l j i' f (by omega), hri'] at this
      exact this (by simp [hfri'])
    · intro hall
      exact absurd hfri (hall i hij ri hri)

/-! ### Claim C8 -/

/-- Claim C8: after `annotate_duplicates`, rows and their url fields are
preserved; a non-empty `source_dup_of` (resp. `dest_dup_of`) on row `j` is
`toString (i + 2)` for the strictly earlier first-seen row `i` carrying the
same old url (resp. the same non-empty best-new url); first occurrences stay
blank, rows with empty `best_new_url` never get `dest_dup_of`, and since
every reference points strictly earlier, references can never form cycles. -/
theorem c8_duplicate_row_references (records : List Record) (j : ℕ)
    (h : j < records.length) :
    (annotate_duplicates records).length = records.length ∧
    ∃ r0 r1, records[j]? = some r0 ∧ (annotate_duplicates records)[j]? = some r1 ∧
      r1.old_url = r0.old_url ∧ r1.best_new_url = r0.best_new_url ∧
      (r1.source_dup_of ≠ "" →
        ∃ i, i < j ∧ r1.source_dup_of = toString (i + 2) ∧
          (∃ ri, records[i]? = some ri ∧ ri.old_url = r0.old_url) ∧
          ∀ i', i' < i → ∀ ri', records[i']? = some ri' → ri'.old_url ≠ r0.old_url) ∧
      ((∀ i, i < j → ∀ ri, records[i]? = some ri → ri.old_url ≠ r0.old_url) →
        r1.source_dup_of = "") ∧
      (r0.best_new_url = "" → r1.dest_dup_of = "") ∧
      (r1.dest_dup_of ≠ "" →
        r0.best_new_url ≠ "" ∧
        ∃ i, i < j ∧ r1.dest_dup_of = toString (i + 2) ∧
          (∃ ri, records[i]? = some ri ∧ ri.best_new_url = r0.best_new_url) ∧
          ∀ i', i' < i → ∀ ri', records[i']? = some ri' →
            ri'.best_new_url ≠ r0.best_new_url) ∧
      ((∀ i, i < j → ∀ ri, records[i]? = some ri →
          ri.best_new_url ≠ r0.best_new_url) →
        r1.dest_dup_of = "") := by
  refine ⟨annotate_go_length records 0 [] [], ?_⟩
  obtain ⟨r0, hr0⟩ : ∃ r0, records[j]? = some r0 :=
    ⟨records[j], List.getElem?_eq_getElem h⟩
  refine ⟨r0, annotate_cell ((records.take j).map (fun x => x.old_url))
    ((records.take j).map (fun x => x.best_new_url)) r0, hr0, ?_, rfl, rfl, ?_, ?_, ?_, ?_, ?_⟩
  · rw [annotate_duplicates_getElem, hr0]
    rfl
  · intro hne
    exact (srcRef_take_spec r0.old_url records j (fun x => x.old_url)).1 hne
  · intro hall
    exact (srcRef_take_spec r0.old_url records j (fun x => x.old_url)).2 hall
  · intro hbe
    simp [annotate_cell, hbe]
  · intro hne
    by_cases hbe : r0.best_new_url = ""
    · exact absurd (by simp [annotate_cell, hbe]) hne
    · rw [show (annotate_cell ((records.take j).map (fun x => x.old_url))
          ((records.take j).map (fun x => x.best_new_url)) r0).dest_dup_of =
          srcRef ((records.take j).map (fun x => x.best_new_url)) r0.best_new_url
          from by simp [annotate_cell, hbe]] at hne ⊢
      exact ⟨hbe, (srcRef_take_spec r0.best_new_url records j (fun x => x.best_new_url)).1 hne⟩
  · intro hall
    by_cases hbe : r0.best_new_url = ""
    · simp [annotate_cell, hbe]
    · rw [show (annotate_cell ((records.take j).map (fun x => x.old_url))
          ((records.take j).map (fun x => x.best_new_url)) r0).dest_dup_of =
          srcRef ((records.take j).map (fun x => x.best_new_url)) r0.best_new_url
          from by simp [annotate_cell, hbe]]
      exact (srcRef_take_spec r0.best_new_url records j (fun x => x.best_new_url)).2 hall

/-- Witness for C8 at a concrete three-row batch: the third row repeats the
first row's old url and is annotated with the first row's displayed
spreadsheet row number `"2"` (= index 0 + 2). -/
theorem c8_duplicate_row_references_witness :
    (2 : ℕ) < 3 ∧
    ((annotate_duplicates
        [⟨"/a", "", "/shop", "", false, 0, false, "", [], "", ""⟩,
         ⟨"/b", "", "/shop", "", false, 0, false, "", [], "", ""⟩,
         ⟨"/a", "", "", "", false, 0, false, "", [], "", ""⟩]).length = 3) := by
  have h := c8_duplicate_row_references
    [⟨"/a", "", "/shop", "", false, 0, false, "", [], "", ""⟩,
     ⟨"/b", "", "/shop", "", false, 0, false, "", [], "", ""⟩,
     ⟨"/a", "", "", "", false, 0, false, "", [], "", ""⟩] 2 (by decide)
  exact ⟨by decide, h.1⟩

/-! ### Claim C9 -/

/-- One annotation pass is a fixed point of a second pass over the same
rows, because the cells are recomputed from the unchanged url fields. -/
theorem annotate_cell_idem (p1 p2 : List String) (r : Record) :
    annotate_cell p1 p2 (annotate_cell p1 p2 r) = annotate_cell p1 p2 r := rfl

/-- Claim C9: `annotate_duplicates` is idempotent — re-running the annotator
on already-annotated records (whose pre-existing annotation columns it
recomputes from scratch) returns exactly the same records. -/
theorem c9_annotate_idempotent (records : List Record) :
    annotate_duplicates (annotate_duplicates records) = annotate_duplicates records := by
  apply List.ext_getElem?
  intro j
  have hold : ((annotate_duplicates records).take j).map (fun x => x.old_url) =
      (records.take j).map (fun x => x.old_url) := by
    apply List.ext_getElem?
    intro i
    rw [List.getElem?_map, List.getElem?_map, List.getElem?_take, List.getElem?_take]
    by_cases hij : i < j
    · rw [if_pos hij, if_pos hij, annotate_duplicates_getElem, Option.map_map]
      cases records[i]? <;> rfl
    · rw [if_neg hij, if_neg hij]
  have hbest : ((annotate_duplicates records).take j).map (fun x => x.best_new_url) =
      (records.take j).map (fun x => x.best_new_url) := by
    apply List.ext_getElem?
    intro i
    rw [List.getElem?_map, List.getElem?_map, List.getElem?_take, List.getElem?_take]
    by_cases hij : i < j
    · rw [if_pos hij, if_pos hij, annotate_duplicates_getElem, Option.map_map]
      cases records[i]? <;> rfl
    · rw [if_neg hij, if_neg hij]
  rw [annotate_duplicates_getElem (annotate_duplicates records) j, hold, hbest,
    annotate_duplicates_getElem records j, Option.map_map]
  cases records[j]? with
  | none => rfl
  | some r =>
    simp only [Option.map_some', Function.comp]
    rw [annotate_cell_idem]

/-! ### Claim C1 -/

/-- Claim C1 counterexample: with an empty shortlist, the decision engine
passes the oracle's (out-of-set, non-empty) URL through unvalidated, so
`best_new_url` is neither empty nor a member of the offered shortlist. -/
theorem c1_counterexample :
    ai_match [] (.ok (.vdict [("best_new_url", .vstr "/x")])) =
      .ok { best_new_url := "/x", confidence := 0, rationale := "" } ∧
    ("/x" ∉ ([] : List String)) ∧ ("/x" : String) ≠ "" := by
  refine ⟨rfl, ?_, ?_⟩ <;> simp

/-- Claim C1 (amended): whenever the offered shortlist is non-empty, the
`best_new_url` of any `MatchResult` that `ai_match` returns is a member of
the shortlist, for every oracle outcome; with an empty shortlist the
oracle's string-coerced answer passes through unvalidated (see the
counterexample). -/
theorem c1_best_in_candidates (candidates : List String) (outcome : OracleOutcome)
    (r : MatchResult) (hok : ai_match candidates outcome = .ok r)
    (hne : candidates ≠ []) : r.best_new_url ∈ candidates := by
  cases outcome with
  | err e =>
    simp only [ai_match, if_neg hne] at hok
    cases hok
    exact headD_mem hne
  | ok v =>
    cases v with
    | vstr s => exact absurd hok (by simp [ai_match])
    | vnum q => exact absurd hok (by simp [ai_match])
    | vbool b => exact absurd hok (by simp [ai_match])
    | vnone => exact absurd hok (by simp [ai_match])
    | vlist xs => exact absurd hok (by simp [ai_match])
    | vdict kvs =>
      simp only [ai_match] at hok
      rcases hpf : py_float (if truthy (dict_get kvs "confidence")
          then dict_get kvs "confidence" else .vnum 0) with q | m | _ <;>
        rw [hpf] at hok
      · by_cases hmem :
          pyStrip (py_str (if truthy (dict_get kvs "best_new_url")
            then dict_get kvs "best_new_url" else .vstr "")) ∉ candidates ∧ candidates ≠ []
        · rw [if_pos hmem] at hok
          cases hok
          exact headD_mem hne
        · rw [if_neg hmem] at hok
          cases hok
          push_neg at hmem
          by_contra hb
          exact hne (hmem hb)
      · simp only [if_neg hne] at hok
        cases hok
        exact headD_mem hne
      · exact absurd hok (by simp)

/-- Witness for the amended C1: a hallucinated out-of-set answer against a
non-empty shortlist lands (after the override) inside the shortlist. -/
theorem c1_best_in_candidates_witness :
    (MatchResult.mk "/a" 0 "").best_new_url ∈ ["/a", "/b"] :=
  c1_best_in_candidates ["/a", "/b"] (.ok (.vdict [("best_new_url", .vstr "/zzz")]))
    (MatchResult.mk "/a" 0 "") rfl (by simp)

/-! ### Claim C3 -/

/-- Claim C3 counterexample: an oracle reply whose `confidence` is the
(truthy, non-numeric) string `"high"` is NOT parsed: the `float` coercion
raises `ValueError`, the handler discards the oracle's in-set answer `"/b"`
and returns the fallback `candidates[0] = "/a"` with a `"fallback: "`
rationale — contradicting the claim that the same response is still parsed
with `confidence` defaulting to 0.0. -/
theorem c3_counterexample :
    ai_match ["/a", "/b"]
        (.ok (.vdict [("best_new_url", .vstr "/b"), ("confidence", .vstr "high"),
          ("rationale", .vstr "same topic")])) =
      .ok { best_new_url := "/a", confidence := 0,
            rationale := "fallback: could not convert string to float: 'high'" } ∧
    ("/a" : String) ≠ "/b" := by
  exact ⟨rfl, by decide⟩

/-- Claim C3 (amended): the engine parses the response with `confidence`
defaulting to `0.0` only when the `confidence` field is missing or falsy
(`None`, `""`, `0`, `False`, empty containers); a truthy non-numeric string
raises `ValueError`, which is handled by discarding the oracle's answer in
favour of the fallback result (`candidates[0]` or `""`, confidence `0.0`,
`"fallback: "` rationale). -/
theorem c3_confidence_coercion (candidates : List String) (kvs : List (String × PyVal)) :
    (truthy (dict_get kvs "confidence") = false →
      ai_match candidates (.ok (.vdict kvs)) =
        .ok { best_new_url := parsed_best candidates kvs
              confidence := 0
              rationale := parsed_rationale kvs }) ∧
    (∀ s, dict_get kvs "confidence" = .vstr s → s ≠ "" → py_parse_float s = none →
      ai_match candidates (.ok (.vdict kvs)) =
        .ok { best_new_url := if candidates = [] then "" else candidates.headD ""
              confidence := 0
              rationale := "fallback: " ++ ("could not convert string to float: '" ++ s ++ "'") }) := by
  constructor
  · intro hfalsy
    simp only [ai_match, parsed_best, parsed_rationale, hfalsy]
    rfl
  · intro s hs hne hparse
    have htr : truthy (PyVal.vstr s) = true := by
      simp [truthy, hne]
    simp only [ai_match, hs, htr, ite_true, py_float, hparse]

/-- Witness for the amended C3, first part: `confidence` missing entirely —
the reply is still parsed, keeping the oracle's in-set answer. -/
theorem c3_confidence_coercion_witness :
    ai_match ["/a", "/b"] (.ok (.vdict [("best_new_url", .vstr "/b")])) =
      .ok { best_new_url := "/b", confidence := 0, rationale := "" } :=
  (c3_confidence_coercion ["/a", "/b"] [("best_new_url", .vstr "/b")]).1 rfl

end UrlMatcher

namespace UrlMatcher

/-! ### Claim C4 -/

/-- Claim C4: for all slugs, `heuristic_score` is `0` when either tokenized
slug is empty, and otherwise `0.7 * jaccard + 0.3 * prefixBonus` where
`jaccard` is the set-semantics Jaccard index of the token sets and the bonus
is `1` exactly when the first 4 characters of the raw slugs agree; the value
always lies in `[0, 1]`. -/
theorem c4_heuristic_score_formula (o n : String) :
    heuristic_score o n =
      (if tokenize_slug o = [] ∨ tokenize_slug n = [] then 0
       else 0.7 * jaccard_tokens o n + 0.3 * (if py_take o 4 = py_take n 4 then 1 else 0)) ∧
    0 ≤ heuristic_score o n ∧ heuristic_score o n ≤ 1 := by
  have hcard : ((tokenize_slug o).toFinset ∩ (tokenize_slug n).toFinset).card ≤
      ((tokenize_slug o).toFinset ∪ (tokenize_slug n).toFinset).card :=
    Finset.card_le_card (Finset.inter_subset_union)
  unfold heuristic_score jaccard_tokens
  by_cases hemp : tokenize_slug o = [] ∨ tokenize_slug n = []
  · simp [hemp]
  · push_neg at hemp
    obtain ⟨ho, hn⟩ := hemp
    have hone : 1 ≤ ((tokenize_slug o).toFinset ∪ (tokenize_slug n).toFinset).card := by
      have : (tokenize_slug o).toFinset.Nonempty := by
        simpa [List.toFinset_eq_empty_iff] using ho
      calc 1 ≤ (tokenize_slug o).toFinset.card := Finset.one_le_card.mpr this
        _ ≤ _ := Finset.card_le_card Finset.subset_union_left
    have hmax : max ((tokenize_slug o).toFinset ∪ (tokenize_slug n).toFinset).card 1 =
        ((tokenize_slug o).toFinset ∪ (tokenize_slug n).toFinset).card :=
      Nat.max_eq_left hone
    have hdpos : (0 : ℚ) < (((tokenize_slug o).toFinset ∪ (tokenize_slug n).toFinset).card : ℚ) := by
      exact_mod_cast Nat.lt_of_lt_of_le Nat.zero_lt_one hone
    have hj0 : (0 : ℚ) ≤ (((tokenize_slug o).toFinset ∩ (tokenize_slug n).toFinset).card : ℚ) /
        (((tokenize_slug o).toFinset ∪ (tokenize_slug n).toFinset).card : ℚ) :=
      div_nonneg (by positivity) hdpos.le
    have hj1 : (((tokenize_slug o).toFinset ∩ (tokenize_slug n).toFinset).card : ℚ) /
        (((tokenize_slug o).toFinset ∪ (tokenize_slug n).toFinset).card : ℚ) ≤ 1 := by
      rw [div_le_one hdpos]
      exact_mod_cast hcard
    have hcond : ¬(tokenize_slug o = [] ∨ tokenize_slug n = []) := by
      rintro (h | h)
      · exact ho h
      · exact hn h
    refine ⟨?_, ?_, ?_⟩ <;>
      simp only [heuristic_score, jaccard_tokens, if_neg hcond, hmax] <;>
      split_ifs <;>
      first
        | rfl
        | nlinarith

/-! ### Claim C5 -/

/-- Claim C5: `segment_aware_score` is the slug score plus exactly the three
boosts (+0.3 matching non-empty primary segments, +0.25 category/brand
candidate, +0.1 per common segment when more than one segment is shared),
clamped above at `1.0` and with no lower clamp; the result never exceeds
`1.0`. -/
theorem c5_segment_aware_formula (old_url new_url : String) (slug_score : ℚ) :
    segment_aware_score old_url new_url slug_score =
      min (slug_score
            + (if get_primary_segment old_url ≠ "" ∧ get_primary_segment new_url ≠ ""
                  ∧ get_primary_segment old_url = get_primary_segment new_url
               then 0.3 else 0)
            + (if is_category_or_brand_page new_url then 0.25 else 0)
            + (if 1 < ((extract_segments old_url).toFinset ∩
                        (extract_segments new_url).toFinset).card
               then 0.1 * (((extract_segments old_url).toFinset ∩
                        (extract_segments new_url).toFinset).card : ℚ) else 0)) 1 ∧
    segment_aware_score old_url new_url slug_score ≤ 1 := by
  constructor
  · simp only [segment_aware_score]
    split_ifs <;>
      first
        | rfl
        | (congr 1; ring)
  · simp only [segment_aware_score]
    exact min_le_right _ _

/-! ### Claim C6 -/

/-- Claim C6 (code bug): the claim says keyword matching is case-insensitive,
but the source computes the lowered path and never uses it, matching the
lowercase keywords against the original-case segments.  At the failing input
`"/a/b/c/Brands"` (4 segments, so the length heuristic does not apply) the
code returns `false` while the claim's case-insensitive classifier returns
`true`; lowercasing the segment (`"/a/b/c/brands"`) makes the code agree. -/
theorem c6_keyword_match_case_sensitive :
    is_category_or_brand_page "/a/b/c/Brands" = false ∧
    is_category_or_brand_page_ci "/a/b/c/Brands" = true ∧
    is_category_or_brand_page "/a/b/c/brands" = true := by
  refine ⟨?_, ?_, ?_⟩ <;> rfl

end UrlMatcher

namespace UrlMatcher

/-! ### Claim C2 -/

/-- Claim C2 counterexample: a malformed oracle reply that is valid JSON but
not an object (here the number `3`, which `chat_json` can return) raises an
uncaught `AttributeError` inside `ai_match`, aborting the whole batch instead
of being recovered into a fallback record. -/
theorem c2_counterexample :
    run_matching ["/blog/a"] [] (fun _ => .ok (.vnum 3)) "full" (1 / 2) =
      .error "AttributeError: object has no attribute get" := by
  rfl

/-- An oracle outcome that `ai_match` survives: a transport error (caught),
or a JSON object whose `confidence` field is not a truthy non-scalar.  A
non-object reply raises an uncaught `AttributeError`; a truthy list/dict
`confidence` raises an uncaught `TypeError` from `float`. -/
def benign_outcome : OracleOutcome → Prop
  | .err _ => True
  | .ok (.vdict kvs) =>
    match dict_get kvs "confidence" with
    | .vlist xs => xs = []
    | .vdict kvs2 => kvs2 = []
    | _ => True
  | .ok _ => False

/-- On a benign outcome, `ai_match` always returns a result. -/
theorem ai_match_ok_of_benign (candidates : List String) (o : OracleOutcome)
    (hb : benign_outcome o) : ∃ r, ai_match candidates o = .ok r := by
  cases o with
  | err e => exact ⟨_, rfl⟩
  | ok v =>
    cases v with
    | vstr s => cases hb
    | vnum q => cases hb
    | vbool b => cases hb
    | vnone => cases hb
    | vlist xs => cases hb
    | vdict kvs =>
      have hnt : py_float (if truthy (dict_get kvs "confidence")
          then dict_get kvs "confidence" else .vnum 0) ≠ .typeErr := by
        rcases hc : dict_get kvs "confidence" with s | q | b | _ | xs | kvs2 <;>
          simp only [benign_outcome, hc] at hb ⊢
        · by_cases hs : truthy (.vstr s) <;>
            simp only [hs, ite_true, ite_false, if_pos, if_neg, py_float] <;>
            first
              | (intro hcontra; cases hcontra)
              | (cases py_parse_float s <;> intro hcontra <;> cases hcontra)
        · split <;> intro hcontra <;> cases hcontra
        · split <;> intro hcontra <;> cases hcontra
        · simp [truthy, py_float]
        · subst hb; simp [truthy, py_float]
        · subst hb; simp [truthy, py_float]
      simp only [ai_match]
      rcases hpf : py_float (if truthy (dict_get kvs "confidence")
          then dict_get kvs "confidence" else .vnum 0) with q | m | _
      · exact ⟨_, rfl⟩
      · exact ⟨_, rfl⟩
      · exact absurd hpf hnt

/-- Reduction of the loop body once the decision engine has answered. -/
theorem build_record_of_ai_ok {new_urls : List String} {mc : ℚ} {u : String}
    {o : OracleOutcome} {m : MatchResult}
    (h : ai_match (top_k_candidates u new_urls 20) o = .ok m) :
    build_record new_urls mc u o = .ok
      { old_url := u
        old_segment := get_primary_segment u
        best_new_url := m.best_new_url
        new_segment := get_primary_segment m.best_new_url
        is_category_page := is_category_or_brand_page m.best_new_url
        confidence := m.confidence
        low_confidence := decide (m.confidence < mc)
        rationale :=
          if m.confidence < mc then
            pyStrip (m.rationale ++ " | below_min_confidence<" ++ toString mc ++ ">")
          else m.rationale
        candidates := top_k_candidates u new_urls 20
        source_dup_of := ""
        dest_dup_of := "" } := by
  simp only [build_record, h]
  rfl

/-- A successful loop-body iteration keeps the row's old url. -/
theorem build_record_old {new_urls : List String} {mc : ℚ} {u : String}
    {o : OracleOutcome} {r : Record}
    (h : build_record new_urls mc u o = .ok r) : r.old_url = u := by
  simp only [build_record] at h
  rcases hai : ai_match (top_k_candidates u new_urls 20) o with e | m
  · rw [hai] at h
    cases h
  · rw [hai] at h
    cases h
    rfl

/-- Any left-nested append starting from the `"fallback: "` literal has
`'f'` as first character. -/
theorem data_fallback_head3 (a b c : String) :
    ((("fallback: " ++ a) ++ b) ++ c).data =
      'f' :: ("allback: ".data ++ (a.data ++ (b.data ++ c.data))) := by
  simp only [String.data_append, List.append_assoc]
  rfl

/-- `str.strip()` is the identity on a string that starts with a non-blank
character and ends in `'>'`. -/
theorem pyStrip_keep (x : String) (cs : List Char) (hx : x.data = 'f' :: cs) :
    pyStrip (x ++ ">") = x ++ ">" := by
  unfold pyStrip
  have hdata : (x ++ ">").data = ('f' :: cs) ++ ['>'] := by
    rw [String.data_append, hx]
  rw [hdata]
  have hf : ¬(isPyWS 'f' = true) := by decide
  have hgt : ¬(isPyWS '>' = true) := by decide
  rw [List.cons_append, List.dropWhile_cons, if_neg hf, ← List.cons_append,
    List.reverse_append]
  have h2 : (['>'] : List Char).reverse = ['>'] := rfl
  rw [h2, List.singleton_append, List.dropWhile_cons, if_neg hgt,
    List.reverse_cons, List.reverse_reverse, ← hdata]

/-- The fallback record produced for a row whose oracle call failed with an
`AIClientError`. -/
theorem build_record_err (new_urls : List String) (mc : ℚ) (u e : String) {r : Record}
    (h : build_record new_urls mc u (.err e) = .ok r) :
    r.old_url = u ∧
    r.best_new_url = (top_k_candidates u new_urls 20).headD "" ∧
    r.confidence = 0 ∧
    ∃ t, r.rationale = ("fallback: " ++ e) ++ t := by
  have hai : ai_match (top_k_candidates u new_urls 20) (.err e) = .ok
      { best_new_url := if top_k_candidates u new_urls 20 = [] then ""
          else (top_k_candidates u new_urls 20).headD ""
        confidence := 0
        rationale := "fallback: " ++ e } := rfl
  rw [build_record_of_ai_ok hai] at h
  cases h
  refine ⟨rfl, ?_, rfl, ?_⟩
  · by_cases hc : top_k_candidates u new_urls 20 = [] <;> simp [hc]
  · by_cases hlc : (0 : ℚ) < mc
    · refine ⟨" | below_min_confidence<" ++ (toString mc ++ ">"), ?_⟩
      simp only [if_pos hlc]
      rw [pyStrip_keep ((("fallback: " ++ e) ++ " | below_min_confidence<") ++ toString mc)
        ("allback: ".data ++ (e.data ++ (" | below_min_confidence<".data ++ (toString mc).data)))
        (data_fallback_head3 e " | below_min_confidence<" (toString mc))]
      simp [String.append_assoc]
    · exact ⟨"", by simp [hlc]⟩

/-- The whole row loop succeeds under a benign oracle, producing one record
per row, in order, each built by the loop body at its own row index. -/
theorem run_rows_ok (new_urls : List String) (mc : ℚ) (oracle : ℕ → OracleOutcome)
    (hb : ∀ i, benign_outcome (oracle i)) :
    ∀ (rows : List String) (i0 : ℕ),
      ∃ records, run_rows new_urls mc oracle i0 rows = .ok records ∧
        records.length = rows.length ∧
        ∀ j : ℕ, ∀ u, rows[j]? = some u → ∃ r, records[j]? = some r ∧
          build_record new_urls mc u (oracle (i0 + j)) = .ok r := by
  intro rows
  induction rows with
  | nil =>
    intro i0
    exact ⟨[], rfl, rfl, by intro j u h; simp at h⟩
  | cons u rest ih =>
    intro i0
    obtain ⟨m, hm⟩ := ai_match_ok_of_benign (top_k_candidates u new_urls 20) (oracle i0) (hb i0)
    obtain ⟨r0, hbr⟩ : ∃ r0, build_record new_urls mc u (oracle i0) = .ok r0 :=
      ⟨_, @build_record_of_ai_ok new_urls mc u (oracle i0) m hm⟩
    obtain ⟨rs, hrs, hlen, hpt⟩ := ih (i0 + 1)
    refine ⟨r0 :: rs, ?_, by simp [hlen], ?_⟩
    · simp only [run_rows, hbr, hrs]
      rfl
    · intro j v hv
      match j with
      | 0 =>
        simp only [List.getElem?_cons_zero] at hv
        cases hv
        exact ⟨r0, List.getElem?_cons_zero, hbr⟩
      | Nat.succ j' =>
        simp only [List.getElem?_cons_succ] at hv
        obtain ⟨r, hr, hbr'⟩ := hpt j' v hv
        refine ⟨r, by simpa using hr, ?_⟩
        have harith : i0 + 1 + j' = i0 + (j' + 1) := by omega
        rw [← harith]
        exact hbr'

/-- Claim C2 (amended): for any oracle behaviour whose replies are JSON
objects with no truthy non-scalar `confidence` — arbitrary failures and all
other malformed replies included — `run_matching` completes and produces
exactly one record per processed old url, in input order; every row whose
oracle call failed carries the fallback record: `best_new_url =
candidates[0]` if the shortlist is non-empty else `""`, confidence `0.0`,
and a rationale beginning with `"fallback: "` followed by the error
description.  (A non-object reply, or a truthy list/dict `confidence`,
raises an uncaught exception and aborts the batch: see the counterexample.) -/
theorem c2_batch_completes (old_urls new_urls : List String) (oracle : ℕ → OracleOutcome)
    (mode : String) (min_confidence : ℚ)
    (hb : ∀ i, benign_outcome (oracle i)) :
    ∃ records, run_matching old_urls new_urls oracle mode min_confidence = .ok records ∧
      records.length = (processed_rows old_urls mode).length ∧
      (∀ j : ℕ, (records[j]?).map (fun r => r.old_url) = (processed_rows old_urls mode)[j]?) ∧
      (∀ j : ℕ, ∀ e, oracle j = .err e → ∀ r, records[j]? = some r →
        r.best_new_url = (top_k_candidates r.old_url new_urls 20).headD "" ∧
        r.confidence = 0 ∧
        ∃ t, r.rationale = ("fallback: " ++ e) ++ t) := by
  obtain ⟨recs, hrecs, hlen, hpt⟩ := run_rows_ok new_urls min_confidence oracle hb
    (processed_rows old_urls mode) 0
  refine ⟨annotate_duplicates recs, ?_, ?_, ?_, ?_⟩
  · simp only [run_matching, hrecs]
    rfl
  · exact (annotate_go_length recs 0 [] []).trans hlen
  · intro j
    rcases hrj : (processed_rows old_urls mode)[j]? with _ | u
    · have hnone : recs[j]? = none := by
        apply List.getElem?_eq_none
        rw [hlen]
        by_contra hcon
        push_neg at hcon
        rw [List.getElem?_eq_getElem hcon] at hrj
        cases hrj
      rw [annotate_duplicates_getElem, hnone]
      rfl
    · obtain ⟨r, hr, hbr⟩ := hpt j u hrj
      rw [annotate_duplicates_getElem, hr]
      simp only [Option.map_some']
      rw [show (annotate_cell ((recs.take j).map (fun x => x.old_url))
        ((recs.take j).map (fun x => x.best_new_url)) r).old_url = r.old_url from rfl]
      rw [build_record_old hbr]
  · intro j e hje r hr
    rw [annotate_duplicates_getElem] at hr
    rcases hrj : recs[j]? with _ | r0
    · rw [hrj] at hr
      cases hr
    · rw [hrj] at hr
      simp only [Option.map_some'] at hr
      have hr' := (Option.some.inj hr).symm
      have hjlt : j < recs.length := (List.getElem?_eq_some.mp hrj).1
      have hjrow : j < (processed_rows old_urls mode).length := by
        rw [← hlen]
        exact hjlt
      obtain ⟨r1, hr1, hbr1⟩ := hpt j ((processed_rows old_urls mode).get ⟨j, hjrow⟩)
        (by rw [List.getElem?_eq_getElem hjrow]; rfl)
      have hr10 : r1 = r0 := by
        rw [hr1] at hrj
        exact Option.some.inj hrj
      subst hr10
      have hje' : oracle (0 + j) = .err e := by
        rw [Nat.zero_add]
        exact hje
      rw [hje'] at hbr1
      obtain ⟨ho, hbest, hconf, t, hrat⟩ := build_record_err _ _ _ _ hbr1
      have hfields : r.best_new_url = r1.best_new_url ∧ r.confidence = r1.confidence ∧
          r.rationale = r1.rationale ∧ r.old_url = r1.old_url := by
        rw [hr']
        exact ⟨rfl, rfl, rfl, rfl⟩
      obtain ⟨hf1, hf2, hf3, hf4⟩ := hfields
      refine ⟨?_, ?_, t, ?_⟩
      · rw [hf1, hf4, ho, hbest]
      · rw [hf2, hconf]
      · rw [hf3, hrat]

/-- Witness for the amended C2: a one-row batch with 100% oracle failure
still completes with a single fallback record. -/
theorem c2_batch_completes_witness :
    ∃ records, run_matching ["/blog/a"] [] (fun _ => .err "boom") "full" 0 = .ok records ∧
      records.length = (processed_rows ["/blog/a"] "full").length ∧
      (∀ j : ℕ, (records[j]?).map (fun r => r.old_url) = (processed_rows ["/blog/a"] "full")[j]?) ∧
      (∀ j : ℕ, ∀ e, (fun _ : ℕ => OracleOutcome.err "boom") j = .err e → ∀ r,
        records[j]? = some r →
        r.best_new_url = (top_k_candidates r.old_url [] 20).headD "" ∧
        r.confidence = 0 ∧
        ∃ t, r.rationale = ("fallback: " ++ e) ++ t) :=
  c2_batch_completes ["/blog/a"] [] (fun _ => .err "boom") "full" 0 (fun _ => trivial)

end UrlMatcher
